import Mathlib

/-!
Verification development for the `json_keyquotes_convert` crate
(`src/json_key_quote_utils.rs`, `src/lib.rs`).

The crate rewrites JSON-like text with Rust `regex` patterns.  We embed the
relevant fragment of the `regex` crate semantics shallowly: a pattern syntax
`Re` (character classes, concatenation, alternation, lazy and greedy
repetition, capture groups) together with a backtracking matcher `mtch` that
realises the leftmost-first match semantics the `regex` crate documents.
Strings are lists of characters.  On top of the matcher we define
`replaceAll` (the crate's `Regex::replace_all`), `capturesIter`
(`Regex::captures_iter`), `replacen1` (Rust's `str::replacen(_, _, 1)`) and
`replaceAllLit` (Rust's `str::replace`), and then translate the four core
functions `json_add_key_quotes`, `json_remove_key_quotes`,
`json_escape_ctrlchars`, `json_unescape_ctrlchars` and the
`JsonKeyQuoteConverter` builder line by line from the source.

The two ctrl-char functions call `.name("key").unwrap()` on every capture;
that fallible step is modelled in the `Option` monad, so those two functions
return `Option Str` and "the unwrap never fires" becomes "the result is
always `some`".
-/

namespace JsonKeyquotesConvert

abbrev Str := List Char

abbrev Caps := List (Nat × Str)

/-- Rust regex `\s` restricted to the ASCII whitespace characters
(all inputs considered in this development are ASCII). -/
def wsChar (c : Char) : Bool :=
  c = ' ' || c = '\t' || c = '\n' || c = '\x0b' || c = '\x0c' || c = '\r'

/-- Rust regex `\d` restricted to the ASCII digits. -/
def digitChar (c : Char) : Bool :=
  '0' ≤ c && c ≤ '9'

/-- The crate's `SUPPORTED_KEY_CHARS_REGEX_STR` character set:
`A-Za-z0-9` plus the punctuation list plus `\s`. -/
def supportedKeyChar (c : Char) : Bool :=
  ('A' ≤ c && c ≤ 'Z') || ('a' ≤ c && c ≤ 'z') || digitChar c ||
  ['`', '~', '!', '@', '#', '$', '%', '€', '^', '&', '*', '(', ')', '-', '_',
   '=', '+', '\\', '|', ';', '"', '\'', '.', '<', '>', '/', '?'].contains c ||
  wsChar c

/-- Pattern syntax for the fragment of the `regex` crate used by the crate:
character classes, concatenation, alternation, lazy (`*?`) and greedy (`*`)
repetition, and (named or numbered) capture groups, here numbered. -/
inductive Re where
  | eps : Re
  | cls : (Char → Bool) → Re
  | seq : Re → Re → Re
  | alt : Re → Re → Re
  | starL : Re → Re
  | starG : Re → Re
  | group : Nat → Re → Re

/-- Backtracking matcher in continuation-passing style, realising the
leftmost-first semantics of the `regex` crate: a lazy star offers the short
alternative first, a greedy star the long one, an alternation its left arm
first.  `c` accumulates the capture groups bound on the success path; a
group records the slice its body consumed.  The fuel bounds star unfolding;
star iterations must consume input (the progress test), so fuel
`s.length + 1` never runs out. -/
def mtch {α : Type} : Nat → Re → Str → Caps → (Str → Caps → Option α) → Option α
  | 0, _, _, _, _ => none
  | _+1, .eps, s, c, k => k s c
  | _+1, .cls _, [], _, _ => none
  | _+1, .cls p, x :: xs, c, k => if p x then k xs c else none
  | f+1, .seq a b, s, c, k => mtch f a s c (fun s2 c2 => mtch f b s2 c2 k)
  | f+1, .alt a b, s, c, k => (mtch f a s c k).orElse (fun _ => mtch f b s c k)
  | f+1, .starL a, s, c, k =>
      (k s c).orElse (fun _ => mtch f a s c (fun s2 c2 =>
        if s2.length < s.length then mtch f (Re.starL a) s2 c2 k else none))
  | f+1, .starG a, s, c, k =>
      (mtch f a s c (fun s2 c2 =>
        if s2.length < s.length then mtch f (Re.starG a) s2 c2 k else none)).orElse
        (fun _ => k s c)
  | f+1, .group n a, s, c, k =>
      mtch f a s c (fun s2 c2 => k s2 ((n, s.take (s.length - s2.length)) :: c2))

/-- Constructor count of a pattern, used to size the matcher fuel. -/
def reSize : Re → Nat
  | .eps => 1
  | .cls _ => 1
  | .seq a b => reSize a + reSize b + 1
  | .alt a b => reSize a + reSize b + 1
  | .starL a => reSize a + 1
  | .starG a => reSize a + 1
  | .group _ a => reSize a + 1

/-- A sufficient fuel: the fuel needed by `r` on input of length `n` is at
most `reSize r * (n + 2)` (each star unfolds at most `n` times by the
progress test, and every other constructor costs one unit on each of the at
most `n + 1` positions it is resumed at), so this bound is never reached. -/
def mtchFuel (r : Re) (s : Str) : Nat :=
  (reSize r + 1) * (s.length + 2)

/-- Preferred match of `r` starting exactly at the head of `s`:
`some (consumed length, captures)`. -/
def matchHere (r : Re) (s : Str) : Option (Nat × Caps) :=
  mtch (mtchFuel r s) r s [] (fun rest caps => some (s.length - rest.length, caps))

/-- Leftmost match of `r` in `s`: `some (start, length, captures)`. -/
def findAux (r : Re) : Str → Option (Nat × Nat × Caps)
  | [] =>
    match matchHere r [] with
    | some (len, caps) => some (0, len, caps)
    | none => none
  | x :: t =>
    match matchHere r (x :: t) with
    | some (len, caps) => some (0, len, caps)
    | none =>
      match findAux r t with
      | some (i, len, caps) => some (i + 1, len, caps)
      | none => none

def replAux (r : Re) (tmpl : Caps → Str) : Nat → Str → Str
  | 0, s => s
  | f+1, s =>
    match findAux r s with
    | none => s
    | some (i, len, caps) =>
      if len = 0 then s
      else s.take i ++ tmpl caps ++ replAux r tmpl f (s.drop (i + len))

/-- `Regex::replace_all`: rewrite every non-overlapping leftmost match by the
template.  (No pattern of the crate can match the empty string; the
`len = 0` guard only fixes the fuel argument.) -/
def replaceAll (r : Re) (tmpl : Caps → Str) (s : Str) : Str :=
  replAux r tmpl (s.length + 1) s

def capsAux (r : Re) : Nat → Str → List Caps
  | 0, _ => []
  | f+1, s =>
    match findAux r s with
    | none => []
    | some (i, len, caps) =>
      if len = 0 then []
      else caps :: capsAux r f (s.drop (i + len))

/-- `Regex::captures_iter`: the captures of the successive non-overlapping
leftmost matches. -/
def capturesIter (r : Re) (s : Str) : List Caps :=
  capsAux r (s.length + 1) s

/-- Split `s` around the first occurrence of `pat` as a substring
(an empty `pat` matches at the front, as in Rust). -/
def splitFirst (pat : Str) : Str → Option (Str × Str)
  | [] => if pat.isEmpty then some ([], []) else none
  | x :: xs =>
    if pat.isPrefixOf (x :: xs) then some ([], (x :: xs).drop pat.length)
    else
      match splitFirst pat xs with
      | some (b, a) => some (x :: b, a)
      | none => none

/-- Rust `str::replacen(pat, rep, 1)`: replace the first occurrence. -/
def replacen1 (s pat rep : Str) : Str :=
  match splitFirst pat s with
  | some (b, a) => b ++ rep ++ a
  | none => s

def replAllLitAux (pat rep : Str) : Nat → Str → Str
  | 0, s => s
  | f+1, s =>
    match splitFirst pat s with
    | none => s
    | some (b, a) => b ++ rep ++ replAllLitAux pat rep f a

/-- Rust `str::replace`: replace every occurrence, left to right,
non-overlapping. -/
def replaceAllLit (s pat rep : Str) : Str :=
  replAllLitAux pat rep (s.length + 1) s

/-- `Captures::name` / numeric indexing: look a group up in the captures. -/
def capLookup (n : Nat) : Caps → Option Str
  | [] => none
  | (m, v) :: rest => if m = n then some v else capLookup n rest

/-- Group interpolation in a `replace_all` template (`$key` and friends);
a group missing from the match expands to the empty string, as in Rust. -/
def getCap (n : Nat) (c : Caps) : Str :=
  (capLookup n c).getD []

/-! Building blocks for the crate's patterns. -/

def chrR (c : Char) : Re := Re.cls (fun x => x == c)

def oneOf (l : List Char) : Re := Re.cls (fun x => l.contains x)

/-- The class `[^"']`. -/
def notQuote : Re := Re.cls (fun x => !(x == '"' || x == '\''))

/-- The class `[\s\S]`: any character. -/
def anyCharR : Re := Re.cls (fun _ => true)

/-- Rust regex `.`: any character but a newline. -/
def dotR : Re := Re.cls (fun x => !(x == '\n'))

/-- Greedy `[\s]*`. -/
def wsStarG : Re := Re.starG (Re.cls wsChar)

/-- Lazy `\s*?`. -/
def wsStarL : Re := Re.starL (Re.cls wsChar)

/-- The key fragment `[SUPPORTED_KEY_CHARS]*?[^"']`. -/
def keyBody : Re := Re.seq (Re.starL (Re.cls supportedKeyChar)) notQuote

/-- The class `[\d\-\.]`. -/
def digStart : Re := Re.cls (fun c => digitChar c || c == '-' || c == '.')

def litWord (w : Str) : Re := w.foldr (fun ch acc => Re.seq (chrR ch) acc) Re.eps

/-- `(?:null|true|false)`. -/
def nullTrueFalse : Re :=
  Re.alt (litWord ['n', 'u', 'l', 'l'])
    (Re.alt (litWord ['t', 'r', 'u', 'e']) (litWord ['f', 'a', 'l', 's', 'e']))

/-- A quoted string value `q[\s\S]*?q` for quote character `q`. -/
def strVal (q : Char) : Re := Re.seq (chrR q) (Re.seq (Re.starL anyCharR) (chrR q))

/-!
The patterns of `json_add_key_quotes`.  Group numbers: 1 is
`prevchar_key`/`before`, 2 is `key`, 3 is `val`/`after`.
-/

/-- `(?P<prevchar_key>[^"'][\s]*)(?P<key>[SUP]*?[^"'])(?P<val>:\s*?q[\s\S]*?q)`
for value-quote `q` (the crate's `single_quoted_string_val_regex` and
`double_quoted_string_val_regex`). -/
def string_val_regex (q : Char) : Re :=
  Re.seq (Re.group 1 (Re.seq notQuote wsStarG))
    (Re.seq (Re.group 2 keyBody)
      (Re.group 3 (Re.seq (chrR ':') (Re.seq wsStarL (strVal q)))))

/-- `(?P<key>[SUP]*?[^"'])(?P<val>:\s*?[{\[])`. -/
def object_val_regex : Re :=
  Re.seq (Re.group 2 keyBody)
    (Re.group 3 (Re.seq (chrR ':') (Re.seq wsStarL (oneOf ['{', '[']))))

/-- `(?P<before>[\[,{]\s*?)(?P<key>[SUP]*?[^"'])(?P<after>:\s*?[\d\-\.])`. -/
def number_val_regex : Re :=
  Re.seq (Re.group 1 (Re.seq (oneOf ['[', ',', '{']) wsStarL))
    (Re.seq (Re.group 2 keyBody)
      (Re.group 3 (Re.seq (chrR ':') (Re.seq wsStarL digStart))))

/-- `(?P<before>[\[,{]\s*?)(?P<key>[SUP]*?[^"'])(?P<after>:\s*?(?:null|true|false))`. -/
def null_bools_val_regex : Re :=
  Re.seq (Re.group 1 (Re.seq (oneOf ['[', ',', '{']) wsStarL))
    (Re.seq (Re.group 2 keyBody)
      (Re.group 3 (Re.seq (chrR ':') (Re.seq wsStarL nullTrueFalse))))

/-- The template `$prevchar_key` q `$key` q `$val` (and `$before`/`$after`
likewise: the surrounding groups are 1 and 3 in every pattern). -/
def addTmpl (q : Str) (c : Caps) : Str :=
  getCap 1 c ++ q ++ getCap 2 c ++ q ++ getCap 3 c

/-- The template q `$key` q `$val` of the object pass. -/
def addObjTmpl (q : Str) (c : Caps) : Str :=
  q ++ getCap 2 c ++ q ++ getCap 3 c

/-- The `Quotes` enum of `lib.rs`. -/
inductive Quotes where
  | DoubleQuote : Quotes
  | SingleQuote : Quotes

def Quotes.as_str : Quotes → Str
  | .DoubleQuote => ['"']
  | .SingleQuote => ['\'']

/-- `Default for Quotes`. -/
def Quotes.default : Quotes := .DoubleQuote

/-- `json_add_key_quotes` (source lines 106-183): five sequential
`replace_all` passes, each over the previous pass's output. -/
def json_add_key_quotes (json : Str) (quote_type : Quotes) : Str :=
  let q := quote_type.as_str
  let json_single_quoted_string_passed :=
    replaceAll (string_val_regex '\'') (addTmpl q) json
  let json_double_quoted_string_passed :=
    replaceAll (string_val_regex '"') (addTmpl q) json_single_quoted_string_passed
  let json_object_passed :=
    replaceAll object_val_regex (addObjTmpl q) json_double_quoted_string_passed
  let json_number_passed :=
    replaceAll number_val_regex (addTmpl q) json_object_passed
  replaceAll null_bools_val_regex (addTmpl q) json_number_passed

/-- `(?P<before>[{\[,][\s]*)q(?P<key>[SUP]*?)q(?P<after>\s*?:)` for key-quote
`q` (the crate's `single_quotes_regex` and `double_quotes_regex`). -/
def remove_quotes_regex (q : Char) : Re :=
  Re.seq (Re.group 1 (Re.seq (oneOf ['{', '[', ',']) wsStarG))
    (Re.seq (chrR q)
      (Re.seq (Re.group 2 (Re.starL (Re.cls supportedKeyChar)))
        (Re.seq (chrR q) (Re.group 3 (Re.seq wsStarL (chrR ':'))))))

/-- The template `$before$key$after`. -/
def removeTmpl (c : Caps) : Str :=
  getCap 1 c ++ getCap 2 c ++ getCap 3 c

/-- `json_remove_key_quotes` (source lines 202-229). -/
def json_remove_key_quotes (json : Str) : Str :=
  let json_single_quotes_passed :=
    replaceAll (remove_quotes_regex '\'') removeTmpl json
  replaceAll (remove_quotes_regex '"') removeTmpl json_single_quotes_passed

/-!
The patterns of `json_escape_ctrlchars` (source lines 253-453).
-/

/-- `(?P<prevchar_key>[^"'][\s]*)kq(?P<key>[SUP]*?[^"'])kq(?P<val>\s*?:\s*?vq[\s\S]*?vq)`
for key-quote `kq` and value-quote `vq` (the four string-key patterns). -/
def esc_string_key_regex (kq vq : Char) : Re :=
  Re.seq (Re.group 1 (Re.seq notQuote wsStarG))
    (Re.seq (chrR kq)
      (Re.seq (Re.group 2 keyBody)
        (Re.seq (chrR kq)
          (Re.group 3 (Re.seq wsStarL (Re.seq (chrR ':') (Re.seq wsStarL (strVal vq))))))))

/-- `kq(?P<key>[SUP]*?[^"'])kq(?P<val>\s*?:\s*?[{\[])`. -/
def esc_object_key_regex (kq : Char) : Re :=
  Re.seq (chrR kq)
    (Re.seq (Re.group 2 keyBody)
      (Re.seq (chrR kq)
        (Re.group 3 (Re.seq wsStarL (Re.seq (chrR ':') (Re.seq wsStarL (oneOf ['{', '['])))))))

/-- `(?P<before>[\[,{]\s*?)kq(?P<key>[SUP]*?[^"'])kq(?P<after>\s*?:\s*?[\d\-\.])`. -/
def esc_number_key_regex (kq : Char) : Re :=
  Re.seq (Re.group 1 (Re.seq (oneOf ['[', ',', '{']) wsStarL))
    (Re.seq (chrR kq)
      (Re.seq (Re.group 2 keyBody)
        (Re.seq (chrR kq)
          (Re.group 3 (Re.seq wsStarL (Re.seq (chrR ':') (Re.seq wsStarL digStart)))))))

/-- `(?P<before>[\[,{]\s*?)kq(?P<key>[SUP]*?[^"'])kq(?P<after>\s*?:\s*?(?:null|true|false))`. -/
def esc_null_boolean_key_regex (kq : Char) : Re :=
  Re.seq (Re.group 1 (Re.seq (oneOf ['[', ',', '{']) wsStarL))
    (Re.seq (chrR kq)
      (Re.seq (Re.group 2 keyBody)
        (Re.seq (chrR kq)
          (Re.group 3 (Re.seq wsStarL (Re.seq (chrR ':') (Re.seq wsStarL nullTrueFalse)))))))

/-- `:[\s]*?q((?:[^q\\]|\\.)*)q` (the two string-value patterns; the body is
capture group 1). -/
def string_value_regex (q : Char) : Re :=
  Re.seq (chrR ':')
    (Re.seq wsStarL
      (Re.seq (chrR q)
        (Re.seq
          (Re.group 1 (Re.starG (Re.alt
            (Re.cls (fun c => !(c == q || c == '\\')))
            (Re.seq (chrR '\\') dotR))))
          (chrR q))))

def lfS : Str := ['\n']

def crS : Str := ['\r']

def tabS : Str := ['\t']

/-- `cap_match.replace("\t", "").replace("\t", "")` — every key block applies
the tab removal through this doubled call. -/
def stripTabTwice (k : Str) : Str :=
  replaceAllLit (replaceAllLit k tabS []) tabS []

/-- One key capture processed by an escape key block: the source's three
`replacen` lines (the fourth, duplicated tab line appears only in the
double-quoted-key/double-quoted-value block and is selected by `extra`). -/
def escKeyStep (extra : Bool) (cur k : Str) : Str :=
  let c1 := replacen1 cur k (replaceAllLit k lfS [])
  let c2 := replacen1 c1 k (replaceAllLit k crS [])
  let c3 := replacen1 c2 k (stripTabTwice k)
  if extra then replacen1 c3 k (stripTabTwice k) else c3

/-- A `for cap in regex.captures_iter(&new_json.clone())` key block of
`json_escape_ctrlchars`: the captures are taken on a snapshot while the
`replacen` calls mutate the current string.  `cap.name("key").unwrap()` is
the `Option` bind. -/
def escKeyBlock (r : Re) (extra : Bool) (s : Str) : Option Str :=
  (capturesIter r s).foldlM (fun cur cap => (capLookup 2 cap).map (escKeyStep extra cur)) s

/-- One value capture processed by an escape value block: replace `\r`, then
`\n`, then `\t` by their escape sequences in the first occurrence of the body. -/
def escValStep (cur b : Str) : Str :=
  let c1 := replacen1 cur b (replaceAllLit b crS ['\\', 'r'])
  let c2 := replacen1 c1 b (replaceAllLit b lfS ['\\', 'n'])
  replacen1 c2 b (replaceAllLit b tabS ['\\', 't'])

/-- A string-value block of `json_escape_ctrlchars`; `&cap[1]` is the
`Option` bind on capture group 1. -/
def escValBlock (r : Re) (s : Str) : Option Str :=
  (capturesIter r s).foldlM (fun cur cap => (capLookup 1 cap).map (escValStep cur)) s

/-- One iteration of the `for _n in 0..2` loop of `json_escape_ctrlchars`:
the ten key blocks, then the two value blocks, in source order. -/
def escIterOnce (s : Str) : Option Str := do
  let s1 ← escKeyBlock (esc_string_key_regex '\'' '\'') false s
  let s2 ← escKeyBlock (esc_string_key_regex '"' '\'') false s1
  let s3 ← escKeyBlock (esc_string_key_regex '\'' '"') false s2
  let s4 ← escKeyBlock (esc_string_key_regex '"' '"') true s3
  let s5 ← escKeyBlock (esc_object_key_regex '\'') false s4
  let s6 ← escKeyBlock (esc_object_key_regex '"') false s5
  let s7 ← escKeyBlock (esc_number_key_regex '\'') false s6
  let s8 ← escKeyBlock (esc_number_key_regex '"') false s7
  let s9 ← escKeyBlock (esc_null_boolean_key_regex '\'') false s8
  let s10 ← escKeyBlock (esc_null_boolean_key_regex '"') false s9
  let s11 ← escValBlock (string_value_regex '\'') s10
  escValBlock (string_value_regex '"') s11

/-- `json_escape_ctrlchars` (source lines 253-453), in the `Option` monad:
`none` would mean one of the `unwrap`s on the named capture fired. -/
def json_escape_ctrlchars (json : Str) : Option Str := do
  let s1 ← escIterOnce json
  escIterOnce s1

/-!
The patterns of `json_unescape_ctrlchars` (source lines 478-586); the key
patterns carry no quotes around the key.
-/

/-- `(?P<prevchar_key>[^"'][\s]*)(?P<key>[SUP]*?[^"'])(?P<val>\s*?:\s*?vq[\s\S]*?vq)`. -/
def une_string_key_regex (vq : Char) : Re :=
  Re.seq (Re.group 1 (Re.seq notQuote wsStarG))
    (Re.seq (Re.group 2 keyBody)
      (Re.group 3 (Re.seq wsStarL (Re.seq (chrR ':') (Re.seq wsStarL (strVal vq))))))

/-- `(?P<key>[SUP]*?[^"'])(?P<val>\s*?:\s*?[{\[])`. -/
def une_object_key_regex : Re :=
  Re.seq (Re.group 2 keyBody)
    (Re.group 3 (Re.seq wsStarL (Re.seq (chrR ':') (Re.seq wsStarL (oneOf ['{', '['])))))

/-- `(?P<before>[\[,{]\s*?)(?P<key>[SUP]*?[^"'])(?P<after>\s*?:\s*?[\d\-\.])`. -/
def une_number_key_regex : Re :=
  Re.seq (Re.group 1 (Re.seq (oneOf ['[', ',', '{']) wsStarL))
    (Re.seq (Re.group 2 keyBody)
      (Re.group 3 (Re.seq wsStarL (Re.seq (chrR ':') (Re.seq wsStarL digStart)))))

/-- `(?P<before>[\[,{]\s*?)(?P<key>[SUP]*?[^"'])(?P<after>\s*?:\s*?(?:null|true|false))`. -/
def une_null_boolean_key_regex : Re :=
  Re.seq (Re.group 1 (Re.seq (oneOf ['[', ',', '{']) wsStarL))
    (Re.seq (Re.group 2 keyBody)
      (Re.group 3 (Re.seq wsStarL (Re.seq (chrR ':') (Re.seq wsStarL nullTrueFalse)))))

/-- One key capture processed by an unescape key block: strip the
two-character tokens `\r`, `\n`, `\t` from the key text. -/
def uneKeyStep (cur k : Str) : Str :=
  let c1 := replacen1 cur k (replaceAllLit k ['\\', 'r'] [])
  let c2 := replacen1 c1 k (replaceAllLit k ['\\', 'n'] [])
  replacen1 c2 k (replaceAllLit k ['\\', 't'] [])

def uneKeyBlock (r : Re) (s : Str) : Option Str :=
  (capturesIter r s).foldlM (fun cur cap => (capLookup 2 cap).map (uneKeyStep cur)) s

/-- One value capture processed by an unescape value block: replace the
tokens `\r`, `\n`, `\t` by the literal control characters. -/
def uneValStep (cur b : Str) : Str :=
  let c1 := replacen1 cur b (replaceAllLit b ['\\', 'r'] crS)
  let c2 := replacen1 c1 b (replaceAllLit b ['\\', 'n'] lfS)
  replacen1 c2 b (replaceAllLit b ['\\', 't'] tabS)

def uneValBlock (r : Re) (s : Str) : Option Str :=
  (capturesIter r s).foldlM (fun cur cap => (capLookup 1 cap).map (uneValStep cur)) s

/-- One iteration of the `for _n in 0..2` loop of `json_unescape_ctrlchars`:
the five key blocks, then the two value blocks, in source order. -/
def uneIterOnce (s : Str) : Option Str := do
  let s1 ← uneKeyBlock (une_string_key_regex '\'') s
  let s2 ← uneKeyBlock (une_string_key_regex '"') s1
  let s3 ← uneKeyBlock une_object_key_regex s2
  let s4 ← uneKeyBlock une_number_key_regex s3
  let s5 ← uneKeyBlock une_null_boolean_key_regex s4
  let s6 ← uneValBlock (string_value_regex '\'') s5
  uneValBlock (string_value_regex '"') s6

/-- `json_unescape_ctrlchars` (source lines 478-586), in the `Option` monad. -/
def json_unescape_ctrlchars (json : Str) : Option Str := do
  let s1 ← uneIterOnce json
  uneIterOnce s1

/-- The `JsonKeyQuoteConverter` builder of `lib.rs`. -/
structure JsonKeyQuoteConverter where
  json : Str
  quote_type : Quotes

/-- `JsonKeyQuoteConverter::new`. -/
def JsonKeyQuoteConverter.new (json : Str) (quote_type : Quotes) : JsonKeyQuoteConverter :=
  { json := json, quote_type := quote_type }

/-- The builder's `add_key_quotes` method. -/
def JsonKeyQuoteConverter.add_key_quotes (c : JsonKeyQuoteConverter) : JsonKeyQuoteConverter :=
  { c with json := json_add_key_quotes c.json c.quote_type }

/-- The builder's `remove_key_quotes` method. -/
def JsonKeyQuoteConverter.remove_key_quotes (c : JsonKeyQuoteConverter) : JsonKeyQuoteConverter :=
  { c with json := json_remove_key_quotes c.json }

/-- The builder's `escape_ctrlchars` method (fallible like the core
function it wraps). -/
def JsonKeyQuoteConverter.escape_ctrlchars (c : JsonKeyQuoteConverter) :
    Option JsonKeyQuoteConverter :=
  (json_escape_ctrlchars c.json).map (fun j => { c with json := j })

/-- The builder's `unescape_ctrlchars` method. -/
def JsonKeyQuoteConverter.unescape_ctrlchars (c : JsonKeyQuoteConverter) :
    Option JsonKeyQuoteConverter :=
  (json_unescape_ctrlchars c.json).map (fun j => { c with json := j })

/-! ### Matcher metatheory -/

theorem orElse_none_left {α : Type} (g : Unit → Option α) :
    Option.orElse none g = g () := rfl

theorem orElse_some_left {α : Type} (a : α) (g : Unit → Option α) :
    Option.orElse (some a) g = some a := rfl

/-- If the continuation rejects every suffix of the input, the matcher
fails: every success of `mtch` flows through the continuation, which is
only ever called on suffixes of the input. -/
theorem mtch_none {α : Type} :
    ∀ (f : Nat) (r : Re) (s : Str) (c : Caps) (k : Str → Caps → Option α),
      (∀ s2 c2, s2 <:+ s → k s2 c2 = none) → mtch f r s c k = none := by
  intro f
  induction f with
  | zero => intro r s c k _; rfl
  | succ f ih =>
    intro r s c k h
    cases r with
    | eps => exact h s c (List.suffix_refl s)
    | cls p =>
      cases s with
      | nil => rfl
      | cons x xs =>
        simp only [mtch]
        split
        · exact h xs c (List.suffix_cons x xs)
        · rfl
    | seq a b =>
      simp only [mtch]
      exact ih a s c _ fun s2 c2 hs =>
        ih b s2 c2 k fun s3 c3 hs3 => h s3 c3 (hs3.trans hs)
    | alt a b =>
      simp only [mtch]
      rw [ih a s c k h, orElse_none_left, ih b s c k h]
    | starL a =>
      simp only [mtch]
      rw [h s c (List.suffix_refl s), orElse_none_left]
      refine ih a s c _ fun s2 c2 hs => ?_
      by_cases hl : s2.length < s.length
      · simp only [hl, if_true]
        exact ih (Re.starL a) s2 c2 k fun s3 c3 hs3 => h s3 c3 (hs3.trans hs)
      · simp only [hl, if_false]
    | starG a =>
      simp only [mtch]
      have hbody : mtch f a s c (fun s2 c2 =>
          if s2.length < s.length then mtch f (Re.starG a) s2 c2 k else none) = none := by
        refine ih a s c _ fun s2 c2 hs => ?_
        by_cases hl : s2.length < s.length
        · simp only [hl, if_true]
          exact ih (Re.starG a) s2 c2 k fun s3 c3 hs3 => h s3 c3 (hs3.trans hs)
        · simp only [hl, if_false]
      rw [hbody, orElse_none_left, h s c (List.suffix_refl s)]
    | group n a =>
      simp only [mtch]
      exact ih a s c _ fun s2 c2 hs => h s2 _ hs

/-- Every success of `mtch` is produced by a continuation call whose capture
list extends the initial one. -/
theorem mtch_some {α : Type} :
    ∀ (f : Nat) (r : Re) (s : Str) (c : Caps) (k : Str → Caps → Option α) (a : α),
      mtch f r s c k = some a → ∃ s2 c2, c <:+ c2 ∧ k s2 c2 = some a := by
  intro f
  induction f with
  | zero => intro r s c k a h; exact absurd h (by simp [mtch])
  | succ f ih =>
    intro r s c k a h
    cases r with
    | eps => exact ⟨s, c, List.suffix_refl c, h⟩
    | cls p =>
      cases s with
      | nil => exact absurd h (by simp [mtch])
      | cons x xs =>
        simp only [mtch] at h
        by_cases hp : p x
        · rw [if_pos hp] at h
          exact ⟨xs, c, List.suffix_refl c, h⟩
        · rw [if_neg hp] at h
          exact absurd h (by simp)
    | seq a1 b =>
      simp only [mtch] at h
      obtain ⟨s2, c2, hc2, h2⟩ := ih a1 s c _ a h
      obtain ⟨s3, c3, hc3, h3⟩ := ih b s2 c2 k a h2
      exact ⟨s3, c3, hc2.trans hc3, h3⟩
    | alt a1 b =>
      simp only [mtch] at h
      cases h1 : mtch f a1 s c k with
      | some v =>
        rw [h1, orElse_some_left] at h
        obtain rfl : v = a := by injection h
        exact ih a1 s c k v h1
      | none =>
        rw [h1, orElse_none_left] at h
        exact ih b s c k _ h
    | starL a1 =>
      simp only [mtch] at h
      cases hk : k s c with
      | some v =>
        rw [hk, orElse_some_left] at h
        obtain rfl : v = a := by injection h
        exact ⟨s, c, List.suffix_refl c, hk⟩
      | none =>
        rw [hk, orElse_none_left] at h
        obtain ⟨s2, c2, hc2, h2⟩ := ih a1 s c _ a h
        by_cases hl : s2.length < s.length
        · rw [if_pos hl] at h2
          obtain ⟨s3, c3, hc3, h3⟩ := ih (Re.starL a1) s2 c2 k a h2
          exact ⟨s3, c3, hc2.trans hc3, h3⟩
        · rw [if_neg hl] at h2
          exact absurd h2 (by simp)
    | starG a1 =>
      simp only [mtch] at h
      cases h1 : mtch f a1 s c (fun s2 c2 =>
          if s2.length < s.length then mtch f (Re.starG a1) s2 c2 k else none) with
      | some v =>
        rw [h1, orElse_some_left] at h
        obtain rfl : v = a := by injection h
        obtain ⟨s2, c2, hc2, h2⟩ := ih a1 s c _ v h1
        by_cases hl : s2.length < s.length
        · rw [if_pos hl] at h2
          obtain ⟨s3, c3, hc3, h3⟩ := ih (Re.starG a1) s2 c2 k v h2
          exact ⟨s3, c3, hc2.trans hc3, h3⟩
        · rw [if_neg hl] at h2
          exact absurd h2 (by simp)
      | none =>
        rw [h1, orElse_none_left] at h
        exact ⟨s, c, List.suffix_refl c, h⟩
    | group n a1 =>
      simp only [mtch] at h
      obtain ⟨s2, c2, hc2, h2⟩ := ih a1 s c _ a h
      refine ⟨s2, (n, s.take (s.length - s2.length)) :: c2, ?_, h2⟩
      exact hc2.trans ((List.suffix_cons _ c2))

/-- `bindsb n r` holds when every successful match of `r` binds capture
group `n`: the group must occur on every path (both arms of an alternation,
never only under a star). -/
def bindsb (n : Nat) : Re → Bool
  | .eps => false
  | .cls _ => false
  | .seq a b => bindsb n a || bindsb n b
  | .alt a b => bindsb n a && bindsb n b
  | .starL _ => false
  | .starG _ => false
  | .group m a => m == n || bindsb n a

theorem capLookup_isSome_of_suffix {n : Nat} :
    ∀ {c c2 : Caps}, c <:+ c2 → (capLookup n c).isSome → (capLookup n c2).isSome := by
  intro c c2 hs h
  obtain ⟨t, rfl⟩ := hs
  induction t with
  | nil => exact h
  | cons p t ih =>
    obtain ⟨m, v⟩ := p
    simp only [List.cons_append, capLookup]
    split
    · rfl
    · exact ih

/-- A successful match of a pattern that binds group `n` flows through a
continuation call whose captures contain group `n`. -/
theorem mtch_binds {α : Type} {n : Nat} :
    ∀ (f : Nat) (r : Re) (s : Str) (c : Caps) (k : Str → Caps → Option α) (a : α),
      bindsb n r = true → mtch f r s c k = some a →
      ∃ s2 c2, (capLookup n c2).isSome = true ∧ k s2 c2 = some a := by
  intro f
  induction f with
  | zero => intro r s c k a _ h; exact absurd h (by simp [mtch])
  | succ f ih =>
    intro r s c k a hb h
    cases r with
    | eps => exact absurd hb (by simp [bindsb])
    | cls p => exact absurd hb (by simp [bindsb])
    | starL a1 => exact absurd hb (by simp [bindsb])
    | starG a1 => exact absurd hb (by simp [bindsb])
    | seq a1 b =>
      simp only [mtch] at h
      simp only [bindsb, Bool.or_eq_true] at hb
      rcases hb with hba | hbb
      · obtain ⟨s2, c2, hc2, h2⟩ := ih a1 s c _ a hba h
        obtain ⟨s3, c3, hc3, h3⟩ := mtch_some f b s2 c2 k a h2
        exact ⟨s3, c3, capLookup_isSome_of_suffix hc3 hc2, h3⟩
      · obtain ⟨s2, c2, _, h2⟩ := mtch_some f a1 s c _ a h
        obtain ⟨s3, c3, hc3, h3⟩ := ih b s2 c2 k a hbb h2
        exact ⟨s3, c3, hc3, h3⟩
    | alt a1 b =>
      simp only [bindsb, Bool.and_eq_true] at hb
      simp only [mtch] at h
      cases h1 : mtch f a1 s c k with
      | some v =>
        rw [h1, orElse_some_left] at h
        obtain rfl : v = a := by injection h
        exact ih a1 s c k v hb.1 h1
      | none =>
        rw [h1, orElse_none_left] at h
        exact ih b s c k _ hb.2 h
    | group m a1 =>
      simp only [mtch] at h
      simp only [bindsb, Bool.or_eq_true] at hb
      by_cases hm : (m == n) = true
      · obtain ⟨s2, c2, hc2, h2⟩ := mtch_some f a1 s c _ a h
        refine ⟨s2, (m, s.take (s.length - s2.length)) :: c2, ?_, h2⟩
        have hmn : m = n := by simpa using hm
        simp only [capLookup, if_pos hmn]
        rfl
      · rcases hb with hb1 | hba
        · exact absurd hb1 hm
        · obtain ⟨s2, c2, hc2, h2⟩ := ih a1 s c _ a hba h
          refine ⟨s2, (m, s.take (s.length - s2.length)) :: c2, ?_, h2⟩
          exact capLookup_isSome_of_suffix (List.suffix_cons _ c2) hc2

/-- Captures returned by `matchHere` bind every group the pattern binds. -/
theorem matchHere_binds {n : Nat} {r : Re} {s : Str} {len : Nat} {caps : Caps}
    (hb : bindsb n r = true) (h : matchHere r s = some (len, caps)) :
    (capLookup n caps).isSome = true := by
  obtain ⟨s2, c2, hc2, h2⟩ := mtch_binds (mtchFuel r s) r s [] _ (len, caps) hb h
  simp only [Option.some.injEq, Prod.mk.injEq] at h2
  obtain ⟨-, rfl⟩ := h2
  exact hc2

/-- Captures returned by `findAux` bind every group the pattern binds. -/
theorem findAux_binds {n : Nat} {r : Re} (hb : bindsb n r = true) :
    ∀ (s : Str) {i len : Nat} {caps : Caps},
      findAux r s = some (i, len, caps) → (capLookup n caps).isSome = true := by
  intro s
  induction s with
  | nil =>
    intro i len caps h
    simp only [findAux] at h
    cases hm : matchHere r [] with
    | some lc =>
      obtain ⟨l2, c2⟩ := lc
      rw [hm] at h
      obtain ⟨rfl, rfl, rfl⟩ : 0 = i ∧ l2 = len ∧ c2 = caps := by
        injection h with h1; simp_all
      exact matchHere_binds hb hm
    | none => rw [hm] at h; exact absurd h (by simp)
  | cons x t ihs =>
    intro i len caps h
    simp only [findAux] at h
    cases hm : matchHere r (x :: t) with
    | some lc =>
      obtain ⟨l2, c2⟩ := lc
      rw [hm] at h
      obtain ⟨rfl, rfl, rfl⟩ : 0 = i ∧ l2 = len ∧ c2 = caps := by
        injection h with h1; simp_all
      exact matchHere_binds hb hm
    | none =>
      rw [hm] at h
      cases hf : findAux r t with
      | some ilc =>
        obtain ⟨i2, l2, c2⟩ := ilc
        rw [hf] at h
        obtain ⟨rfl, rfl, rfl⟩ : i2 + 1 = i ∧ l2 = len ∧ c2 = caps := by
          injection h with h1; simp_all
        exact ihs hf
      | none => rw [hf] at h; exact absurd h (by simp)

/-- Every capture list produced by `capturesIter` binds every group the
pattern binds. -/
theorem capsAux_binds {n : Nat} {r : Re} (hb : bindsb n r = true) :
    ∀ (fuel : Nat) (s : Str) (cap : Caps), cap ∈ capsAux r fuel s →
      (capLookup n cap).isSome = true := by
  intro fuel
  induction fuel with
  | zero => intro s cap h; exact absurd h (by simp [capsAux])
  | succ fuel ih =>
    intro s cap h
    cases hf : findAux r s with
    | none =>
      simp only [capsAux, hf] at h
      exact absurd h (by simp)
    | some ilc =>
      obtain ⟨i, len, caps⟩ := ilc
      simp only [capsAux, hf] at h
      by_cases hl : len = 0
      · rw [if_pos hl] at h; exact absurd h (by simp)
      · rw [if_neg hl] at h
        rcases List.mem_cons.mp h with rfl | hmem
        · exact findAux_binds hb s hf
        · exact ih _ cap hmem

theorem capturesIter_binds {n : Nat} {r : Re} (hb : bindsb n r = true)
    {s : Str} {cap : Caps} (h : cap ∈ capturesIter r s) :
    (capLookup n cap).isSome = true :=
  capsAux_binds hb _ s cap h

/-- A capture-processing fold (the body of every escape/unescape block)
succeeds as soon as every capture list in it binds the group it looks up. -/
theorem foldCaps_isSome {g : Str → Str → Str} {m : Nat} :
    ∀ (l : List Caps) (s : Str), (∀ cap ∈ l, (capLookup m cap).isSome = true) →
      (l.foldlM (fun cur cap => (capLookup m cap).map (g cur)) s).isSome = true := by
  intro l
  induction l with
  | nil => intro s _; rfl
  | cons cap l ih =>
    intro s h
    rw [List.foldlM_cons]
    obtain ⟨v, hv⟩ := Option.isSome_iff_exists.mp (h cap (List.mem_cons_self cap l))
    rw [hv]
    exact ih (g s v) fun c hc => h c (List.mem_cons_of_mem cap hc)

theorem escKeyBlock_isSome (r : Re) (extra : Bool) (s : Str)
    (hb : bindsb 2 r = true) : (escKeyBlock r extra s).isSome = true :=
  foldCaps_isSome (capturesIter r s) s fun _ hc => capturesIter_binds hb hc

theorem escValBlock_isSome (r : Re) (s : Str)
    (hb : bindsb 1 r = true) : (escValBlock r s).isSome = true :=
  foldCaps_isSome (capturesIter r s) s fun _ hc => capturesIter_binds hb hc

theorem uneKeyBlock_isSome (r : Re) (s : Str)
    (hb : bindsb 2 r = true) : (uneKeyBlock r s).isSome = true :=
  foldCaps_isSome (capturesIter r s) s fun _ hc => capturesIter_binds hb hc

theorem uneValBlock_isSome (r : Re) (s : Str)
    (hb : bindsb 1 r = true) : (uneValBlock r s).isSome = true :=
  foldCaps_isSome (capturesIter r s) s fun _ hc => capturesIter_binds hb hc

theorem bind_isSome {o : Option Str} {fn : Str → Option Str}
    (h1 : o.isSome = true) (h2 : ∀ x, (fn x).isSome = true) :
    (o.bind fn).isSome = true := by
  obtain ⟨v, hv⟩ := Option.isSome_iff_exists.mp h1
  rw [hv, Option.some_bind]
  exact h2 v

theorem escIterOnce_isSome (s : Str) : (escIterOnce s).isSome = true := by
  unfold escIterOnce
  repeat
    refine bind_isSome (escKeyBlock_isSome _ _ _ rfl) fun x => ?_
  refine bind_isSome (escValBlock_isSome _ _ rfl) fun x => ?_
  exact escValBlock_isSome _ _ rfl

theorem uneIterOnce_isSome (s : Str) : (uneIterOnce s).isSome = true := by
  unfold uneIterOnce
  repeat
    refine bind_isSome (uneKeyBlock_isSome _ _ rfl) fun x => ?_
  refine bind_isSome (uneValBlock_isSome _ _ rfl) fun x => ?_
  exact uneValBlock_isSome _ _ rfl

/-! ### Patterns that must consume a specific character -/

/-- `Needs p r` certifies that any successful match of `r` consumes at least
one character satisfying `p`. -/
inductive Needs (p : Char → Bool) : Re → Prop
  | cls (q : Char → Bool) (h : ∀ ch, q ch = true → p ch = true) : Needs p (.cls q)
  | seqL {a : Re} (b : Re) (h : Needs p a) : Needs p (.seq a b)
  | seqR (a : Re) {b : Re} (h : Needs p b) : Needs p (.seq a b)
  | grp {a : Re} (n : Nat) (h : Needs p a) : Needs p (.group n a)

/-- On input without any `p`-character, a pattern that needs a
`p`-character cannot match. -/
theorem mtch_needs {α : Type} {p : Char → Bool} {r : Re} (hn : Needs p r) :
    ∀ (f : Nat) (s : Str), (∀ ch ∈ s, p ch = false) →
      ∀ (c : Caps) (k : Str → Caps → Option α), mtch f r s c k = none := by
  induction hn with
  | cls q hq =>
    intro f s hs c k
    match f, s with
    | 0, _ => rfl
    | _+1, [] => rfl
    | _+1, x :: xs =>
      have : q x = false := by
        cases hqx : q x with
        | true => exact absurd (hs x (List.mem_cons_self x xs)) (by simp [hq x hqx])
        | false => rfl
      simp only [mtch, this]
      rfl
  | seqL b hn ih =>
    intro f s hs c k
    match f with
    | 0 => rfl
    | f+1 =>
      simp only [mtch]
      exact ih f s hs c _
  | seqR a hn ih =>
    intro f s hs c k
    match f with
    | 0 => rfl
    | f+1 =>
      simp only [mtch]
      refine mtch_none f a s c _ fun s2 c2 hsuf => ?_
      exact ih f s2 (fun ch hch => hs ch (hsuf.subset hch)) c2 k
  | grp n hn ih =>
    intro f s hs c k
    match f with
    | 0 => rfl
    | f+1 =>
      simp only [mtch]
      exact ih f s hs c _

theorem matchHere_needs {p : Char → Bool} {r : Re} (hn : Needs p r)
    {s : Str} (hs : ∀ ch ∈ s, p ch = false) : matchHere r s = none := by
  unfold matchHere
  exact mtch_needs hn _ s hs [] _

theorem findAux_needs {p : Char → Bool} {r : Re} (hn : Needs p r) :
    ∀ (s : Str), (∀ ch ∈ s, p ch = false) → findAux r s = none := by
  intro s
  induction s with
  | nil =>
    intro hs
    simp only [findAux, matchHere_needs hn hs]
  | cons x t ih =>
    intro hs
    have ht : ∀ ch ∈ t, p ch = false := fun ch hch => hs ch (List.mem_cons_of_mem x hch)
    simp only [findAux, matchHere_needs hn hs, ih ht]

/-- A `replace_all` by a pattern that needs a character the input does not
contain is the identity. -/
theorem replaceAll_needs {p : Char → Bool} {r : Re} (hn : Needs p r)
    {tmpl : Caps → Str} {s : Str} (hs : ∀ ch ∈ s, p ch = false) :
    replaceAll r tmpl s = s := by
  unfold replaceAll
  cases hf : s.length + 1 with
  | zero => rfl
  | succ f => simp only [replAux, findAux_needs hn s hs]

def isColon (c : Char) : Bool := c == ':'

/-- One of the three delimiters `{`, `[`, `,` that must precede a key for
`json_remove_key_quotes` to strip its quotes. -/
def removeDelim (c : Char) : Bool := c = '{' || c = '[' || c = ','

theorem string_val_regex_needs (q : Char) :
    Needs isColon (string_val_regex q) :=
  .seqR _ (.seqR _ (.grp 3 (.seqL _ (.cls _ fun _ h => h))))

theorem object_val_regex_needs : Needs isColon object_val_regex :=
  .seqR _ (.grp 3 (.seqL _ (.cls _ fun _ h => h)))

theorem number_val_regex_needs : Needs isColon number_val_regex :=
  .seqR _ (.seqR _ (.grp 3 (.seqL _ (.cls _ fun _ h => h))))

theorem null_bools_val_regex_needs : Needs isColon null_bools_val_regex :=
  .seqR _ (.seqR _ (.grp 3 (.seqL _ (.cls _ fun _ h => h))))

theorem remove_quotes_regex_needs (q : Char) :
    Needs removeDelim (remove_quotes_regex q) := by
  refine .seqL _ (.grp 1 (.seqL _ (.cls _ ?_)))
  intro ch h
  have : ch = '{' ∨ ch = '[' ∨ ch = ',' := by simpa [oneOf] using h
  rcases this with rfl | rfl | rfl <;> rfl

/-- On input containing no colon, `json_add_key_quotes` is the identity:
all five patterns require a literal `:` in the `val`/`after` group. -/
theorem json_add_key_quotes_id_of_no_colon {s : Str} (q : Quotes)
    (hs : ∀ ch ∈ s, isColon ch = false) : json_add_key_quotes s q = s := by
  show (replaceAll null_bools_val_regex (addTmpl q.as_str)
    (replaceAll number_val_regex (addTmpl q.as_str)
      (replaceAll object_val_regex (addObjTmpl q.as_str)
        (replaceAll (string_val_regex '"') (addTmpl q.as_str)
          (replaceAll (string_val_regex '\'') (addTmpl q.as_str) s))))) = s
  rw [replaceAll_needs (string_val_regex_needs '\'') hs,
    replaceAll_needs (string_val_regex_needs '"') hs,
    replaceAll_needs object_val_regex_needs hs,
    replaceAll_needs number_val_regex_needs hs,
    replaceAll_needs null_bools_val_regex_needs hs]

/-- On input containing none of the delimiters `{`, `[`, `,`,
`json_remove_key_quotes` is the identity: both patterns require one as
their first character. -/
theorem json_remove_key_quotes_id_of_no_delim {s : Str}
    (hs : ∀ ch ∈ s, removeDelim ch = false) : json_remove_key_quotes s = s := by
  show (replaceAll (remove_quotes_regex '"') removeTmpl
    (replaceAll (remove_quotes_regex '\'') removeTmpl s)) = s
  rw [replaceAll_needs (remove_quotes_regex_needs '\'') hs,
    replaceAll_needs (remove_quotes_regex_needs '"') hs]

theorem no_colon_of_supported {s : Str}
    (hs : ∀ ch ∈ s, supportedKeyChar ch = true) :
    ∀ ch ∈ s, isColon ch = false := by
  intro ch hch
  cases hc : isColon ch with
  | false => rfl
  | true =>
    obtain rfl : ch = ':' := by simpa [isColon] using hc
    exact absurd (hs _ hch) (by decide)

theorem no_delim_of_supported {s : Str}
    (hs : ∀ ch ∈ s, supportedKeyChar ch = true) :
    ∀ ch ∈ s, removeDelim ch = false := by
  intro ch hch
  cases hc : removeDelim ch with
  | false => rfl
  | true =>
    have : (ch = '{' ∨ ch = '[') ∨ ch = ',' := by simpa [removeDelim] using hc
    rcases this with (rfl | rfl) | rfl <;> exact absurd (hs _ hch) (by decide)

/-! ### The claims -/

/-- Claim C1, counterexample.  None of the passes is idempotent on every
input.  `json_add_key_quotes` on `  : :[` gives `  :" ":[` once but
` " ":" ":[` twice; `json_remove_key_quotes` on `,"''":` gives `,'':` once
(the removed double quotes expose a single-quoted key shape) but `,:`
twice; `json_escape_ctrlchars` on `<LF><LF>:'<LF>'` escapes one stray
leading newline per call (its `replacen` replaces the first occurrence of
the captured value body anywhere in the text) and so keeps changing. -/
theorem claim_C1_counterexample :
    json_add_key_quotes (json_add_key_quotes ("  : :[".toList) Quotes.DoubleQuote)
        Quotes.DoubleQuote ≠
      json_add_key_quotes ("  : :[".toList) Quotes.DoubleQuote ∧
    json_remove_key_quotes (json_remove_key_quotes [',', '"', '\'', '\'', '"', ':']) ≠
      json_remove_key_quotes [',', '"', '\'', '\'', '"', ':'] ∧
    (json_escape_ctrlchars ['\n', '\n', ':', '\'', '\n', '\'']).bind json_escape_ctrlchars ≠
      json_escape_ctrlchars ['\n', '\n', ':', '\'', '\n', '\''] :=
  ⟨by decide, by decide, by decide⟩

/-- Claim C1, amended: the four passes are idempotent on the crate's
documented example inputs (the doctest inputs of
`json_key_quote_utils.rs`), though not on arbitrary text. -/
theorem claim_C1_idempotent_on_documented_examples :
    (json_add_key_quotes
        (json_add_key_quotes ("\x7bkey: \"val\"\x7d".toList) Quotes.DoubleQuote)
        Quotes.DoubleQuote =
      json_add_key_quotes ("\x7bkey: \"val\"\x7d".toList) Quotes.DoubleQuote) ∧
    (json_remove_key_quotes (json_remove_key_quotes ("\x7b\"key\": \"val\"\x7d".toList)) =
      json_remove_key_quotes ("\x7b\"key\": \"val\"\x7d".toList)) ∧
    (json_escape_ctrlchars ("\x7b\"key\": \"va\nl\"\x7d".toList) =
        some ("\x7b\"key\": \"va\\nl\"\x7d".toList) ∧
      json_escape_ctrlchars ("\x7b\"key\": \"va\\nl\"\x7d".toList) =
        some ("\x7b\"key\": \"va\\nl\"\x7d".toList)) ∧
    (json_unescape_ctrlchars ("\x7bkey: \"va\\nl\"\x7d".toList) =
        some ("\x7bkey: \"va\nl\"\x7d".toList) ∧
      json_unescape_ctrlchars ("\x7bkey: \"va\nl\"\x7d".toList) =
        some ("\x7bkey: \"va\nl\"\x7d".toList)) :=
  ⟨by decide, by decide, ⟨by decide, by decide⟩, ⟨by decide, by decide⟩⟩

/-- Claim C2.  A text built only from the supported key-character set
contains no colon and none of the structural delimiters (the set has
neither `:` nor `{`, `[`, `,`), so every pass of `json_add_key_quotes` and
of `json_remove_key_quotes` leaves it unchanged and the round trip is
exact — the quote-style normalization is the identity here.  On the
documented relaxed document `{key: "val"}` the round trip is also exact. -/
theorem claim_C2_roundtrip :
    (∀ (s : Str) (q : Quotes), (∀ ch ∈ s, supportedKeyChar ch = true) →
      json_remove_key_quotes (json_add_key_quotes s q) = s) ∧
    json_remove_key_quotes
        (json_add_key_quotes ("\x7bkey: \"val\"\x7d".toList) Quotes.DoubleQuote) =
      "\x7bkey: \"val\"\x7d".toList := by
  constructor
  · intro s q hs
    rw [json_add_key_quotes_id_of_no_colon q (no_colon_of_supported hs)]
    exact json_remove_key_quotes_id_of_no_delim (no_delim_of_supported hs)
  · decide

/-- Witness for C2 at the concrete supported-only text `key value`. -/
theorem claim_C2_roundtrip_witness :
    json_remove_key_quotes
        (json_add_key_quotes ("key value".toList) Quotes.SingleQuote) =
      "key value".toList :=
  claim_C2_roundtrip.1 ("key value".toList) Quotes.SingleQuote (by decide)

/-- Claim C3, counterexample.  The value body `a\nb` of
`{k: "a\nb"}` (a two-character escape token, no control characters at all)
satisfies the claim's precondition vacuously; `json_escape_ctrlchars`
leaves the text unchanged, but `json_unescape_ctrlchars` then turns the
token into a literal newline, so the composition is not the identity. -/
theorem claim_C3_counterexample :
    json_escape_ctrlchars ("\x7bk: \"a\\nb\"\x7d".toList) =
      some ("\x7bk: \"a\\nb\"\x7d".toList) ∧
    (json_escape_ctrlchars ("\x7bk: \"a\\nb\"\x7d".toList)).bind json_unescape_ctrlchars =
      some ("\x7bk: \"a\nb\"\x7d".toList) ∧
    (json_escape_ctrlchars ("\x7bk: \"a\\nb\"\x7d".toList)).bind json_unescape_ctrlchars ≠
      some ("\x7bk: \"a\\nb\"\x7d".toList) :=
  ⟨by decide, by decide, by decide⟩

/-- Claim C3, amended: the unescape-after-escape round trip is the identity
when the value bodies contain the supported control characters but no
pre-existing backslash escape tokens, as on the spec's example (with a
newline) and the tab variant. -/
theorem claim_C3_inverse_on_ctrl_only_values :
    (json_escape_ctrlchars ("\x7b\"key\": \"va\nl\"\x7d".toList)).bind
        json_unescape_ctrlchars =
      some ("\x7b\"key\": \"va\nl\"\x7d".toList) ∧
    (json_escape_ctrlchars ("\x7b\"key\": \"va\tl\"\x7d".toList)).bind
        json_unescape_ctrlchars =
      some ("\x7b\"key\": \"va\tl\"\x7d".toList) :=
  ⟨by decide, by decide⟩

/-- Claim C4, counterexample.  In `{k: "{ 'a': 1}"}` the two `'` characters
lie strictly inside a double-quoted string value and belong to the
supported key-character set, and the first of them is not immediately
before a colon; yet `json_remove_key_quotes` deletes both, because the
value body `{ 'a': 1}` looks like an object with a single-quoted key. -/
theorem claim_C4_counterexample :
    json_remove_key_quotes
        ['\x7b', 'k', ':', ' ', '"', '\x7b', ' ', '\'', 'a', '\'', ':', ' ', '1',
          '\x7d', '"', '\x7d'] =
      ['\x7b', 'k', ':', ' ', '"', '\x7b', ' ', 'a', ':', ' ', '1',
          '\x7d', '"', '\x7d'] ∧
    json_remove_key_quotes
        ['\x7b', 'k', ':', ' ', '"', '\x7b', ' ', '\'', 'a', '\'', ':', ' ', '1',
          '\x7d', '"', '\x7d'] ≠
      ['\x7b', 'k', ':', ' ', '"', '\x7b', ' ', '\'', 'a', '\'', ':', ' ', '1',
          '\x7d', '"', '\x7d'] :=
  ⟨by decide, by decide⟩

/-- Claim C4, amended: on the spec's documented scenarios the value region
(everything from the colon on, including the quoted value `"val"`) passes
through `json_add_key_quotes` and `json_remove_key_quotes` unchanged; only
the key region left of the colon is rewritten.  In general a string value
that itself contains a delimiter followed by quoted-key-shaped text is
corrupted, as the counterexample shows. -/
theorem claim_C4_noninterference_on_documented_examples :
    json_add_key_quotes ("\x7bkey: \"val\"\x7d".toList) Quotes.DoubleQuote =
      "\x7b\"key\"".toList ++ ": \"val\"\x7d".toList ∧
    json_remove_key_quotes ("\x7b\"key\": \"val\"\x7d".toList) =
      "\x7bkey".toList ++ ": \"val\"\x7d".toList :=
  ⟨by decide, by decide⟩

/-- Claim C5: on `{key: "val"}` with double-quote style,
`json_add_key_quotes` returns `{"key": "val"}`; on the already-quoted
`{"key": "val"}` it returns the input unchanged. -/
theorem claim_C5_add_concrete :
    json_add_key_quotes ("\x7bkey: \"val\"\x7d".toList) Quotes.DoubleQuote =
      "\x7b\"key\": \"val\"\x7d".toList ∧
    json_add_key_quotes ("\x7b\"key\": \"val\"\x7d".toList) Quotes.DoubleQuote =
      "\x7b\"key\": \"val\"\x7d".toList :=
  ⟨by decide, by decide⟩

/-- Claim C6: `json_remove_key_quotes` turns `{"key": "val"}` into
`{key: "val"}`, stripping only the key's quotes and leaving the value's
quotes; the bare `{key: "val"}` is returned unchanged. -/
theorem claim_C6_remove_concrete :
    json_remove_key_quotes ("\x7b\"key\": \"val\"\x7d".toList) =
      "\x7bkey: \"val\"\x7d".toList ∧
    json_remove_key_quotes ("\x7bkey: \"val\"\x7d".toList) =
      "\x7bkey: \"val\"\x7d".toList :=
  ⟨by decide, by decide⟩

/-- Claim C7: `json_escape_ctrlchars` escapes literal control characters
inside a quoted string-value body (`{"key": "va<LF>l"}` becomes
`{"key": "va\nl"}`) and strips, rather than escapes, literal control
characters inside a recognized quoted key (`{"ke<LF>y": "val"}` becomes
`{"key": "val"}`; likewise a carriage return in the key is stripped while
a tab in the value is escaped). -/
theorem claim_C7_escape_concrete :
    json_escape_ctrlchars ("\x7b\"key\": \"va\nl\"\x7d".toList) =
      some ("\x7b\"key\": \"va\\nl\"\x7d".toList) ∧
    json_escape_ctrlchars ("\x7b\"ke\ny\": \"val\"\x7d".toList) =
      some ("\x7b\"key\": \"val\"\x7d".toList) ∧
    json_escape_ctrlchars ("\x7b\"ke\ry\": \"va\tl\"\x7d".toList) =
      some ("\x7b\"key\": \"va\\tl\"\x7d".toList) :=
  ⟨by decide, by decide, by decide⟩

/-- Claim C8: the four core functions are total.  `json_add_key_quotes` and
`json_remove_key_quotes` are plain functions into `Str` (their `replace_all`
templates expand a missing group to the empty string and cannot fail); the
two ctrl-char functions run `.name("key").unwrap()` (and `&cap[1]`) on
every capture, modelled here in the `Option` monad, and every capture of a
successful match binds those groups, so the result is always `some`: the
unwraps are unreachable.  The `Regex::new(..).unwrap()` calls are static
pattern constants, modelled by the closed `Re` terms themselves. -/
theorem claim_C8_totality (s : Str) :
    (json_escape_ctrlchars s).isSome = true ∧
    (json_unescape_ctrlchars s).isSome = true := by
  constructor
  · unfold json_escape_ctrlchars
    exact bind_isSome (escIterOnce_isSome s) fun x => escIterOnce_isSome x
  · unfold json_unescape_ctrlchars
    exact bind_isSome (uneIterOnce_isSome s) fun x => uneIterOnce_isSome x

/-- Claim C9, counterexample.  An input whose first quoted key is not
preceded by `{`, `[` or `,` is not necessarily returned unchanged: in
`"a": 1, "b": 2` the first key `"a"` has no preceding delimiter and keeps
its quotes, but the comma before `"b"` lets the double-quotes pass strip
that key, so the function returns `"a": 1, b: 2`, not the input. -/
theorem claim_C9_counterexample :
    json_remove_key_quotes ("\"a\": 1, \"b\": 2".toList) =
      "\"a\": 1, b: 2".toList ∧
    json_remove_key_quotes ("\"a\": 1, \"b\": 2".toList) ≠
      "\"a\": 1, \"b\": 2".toList :=
  ⟨by decide, by decide⟩

/-- Claim C9, amended: `json_remove_key_quotes` only strips a key preceded
(up to whitespace) by one of `{`, `[`, `,` — both of its patterns must
consume such a delimiter first — so an input containing none of those
delimiters anywhere, in particular the spec's `"key": "val"`, is returned
unchanged.  (An unpreceded *first* key keeps its quotes, but the rest of
the input is still scanned: a later delimiter can introduce a change, as
the counterexample shows.) -/
theorem claim_C9_remove_requires_delimiter :
    (∀ s : Str, (∀ ch ∈ s, removeDelim ch = false) →
      json_remove_key_quotes s = s) ∧
    json_remove_key_quotes ("\"key\": \"val\"".toList) = "\"key\": \"val\"".toList :=
  ⟨fun _ hs => json_remove_key_quotes_id_of_no_delim hs, by decide⟩

/-- Witness for C9 at the concrete delimiter-free input `"key": "val"`. -/
theorem claim_C9_remove_requires_delimiter_witness :
    json_remove_key_quotes ("\"key\": \"val\"".toList) = "\"key\": \"val\"".toList :=
  claim_C9_remove_requires_delimiter.1 ("\"key\": \"val\"".toList) (by decide)

/-- Claim C10: the `JsonKeyQuoteConverter` builder is an exact wrapper over
the core functions: `new(s, q).json()` returns `s`, and each builder method
followed by `json()` gives exactly the corresponding core function applied
to `s` (with `q` passed to `json_add_key_quotes`). -/
theorem claim_C10_builder_wraps_core (s : Str) (q : Quotes) :
    (JsonKeyQuoteConverter.new s q).json = s ∧
    ((JsonKeyQuoteConverter.new s q).add_key_quotes).json = json_add_key_quotes s q ∧
    ((JsonKeyQuoteConverter.new s q).remove_key_quotes).json = json_remove_key_quotes s ∧
    ((JsonKeyQuoteConverter.new s q).escape_ctrlchars).map JsonKeyQuoteConverter.json =
      json_escape_ctrlchars s ∧
    ((JsonKeyQuoteConverter.new s q).unescape_ctrlchars).map JsonKeyQuoteConverter.json =
      json_unescape_ctrlchars s := by
  refine ⟨rfl, rfl, rfl, ?_, ?_⟩
  · show ((json_escape_ctrlchars s).map _).map _ = json_escape_ctrlchars s
    cases json_escape_ctrlchars s <;> rfl
  · show ((json_unescape_ctrlchars s).map _).map _ = json_unescape_ctrlchars s
    cases json_unescape_ctrlchars s <;> rfl

end JsonKeyquotesConvert
